import Mathlib

/-!
Verification development for the waypoint snapshot-restore client and the
deployment-configuration environment mapping.

The Go sources embedded here are:
* `sdk/component/deployment.go` — `DeploymentConfig` and its `Env` method,
  a pure map from a configuration value to environment variables.
* `internal/cli/snapshot_restore.go` — `initReader` (byte-source selection)
  and `SnapshotRestoreCommand.Run` (the chunked upload client), including a
  faithful embedding of `io.ReadFull` / `io.ReadAtLeast` from the Go
  standard library, which the chunk loop calls.

Byte sources are modelled as a finite list of read events: each underlying
`Read` call on the source delivers a block of bytes together with an
optional error, and an exhausted source reports end-of-file forever.
-/

namespace Waypoint

/-! ## Definitions: sdk/component/deployment.go -/

/-- The deployment configuration struct from `deployment.go`. -/
structure DeploymentConfig where
  Id : String
  ServerAddr : String
  ServerInsecure : Bool
deriving DecidableEq, Repr

/-- The Go map is modelled as an association list with distinct literal keys;
`envGet` below is map lookup. This is the body of `(*DeploymentConfig).Env`. -/
def DeploymentConfig.Env (c : DeploymentConfig) : List (String × String) :=
  let results := [("DEVFLOW_DEPLOYMENT_ID", c.Id)]
  if c.ServerAddr = "" then
    results ++ [("DEVFLOW_SERVER_DISABLE", "1")]
  else
    (results ++ [("DEVFLOW_SERVER_ADDR", c.ServerAddr)]) ++
      (if c.ServerInsecure then [("DEVFLOW_SERVER_INSECURE", "1")] else [])

/-- Lookup in the modelled map. -/
def envGet (m : List (String × String)) (k : String) : Option String :=
  (m.find? (fun p => p.1 == k)).map (fun p => p.2)

/-! ## Definitions: byte sources and the Go `io.ReadFull` contract

A Go `io.Reader` is modelled by a finite list of read events.  One call to
`Read(p)` with room for `cap` bytes behaves as follows: on an empty list the
reader is exhausted and reports end-of-file; otherwise the head event
delivers its bytes together with its (optional) error, except that when the
head event holds more bytes than `cap`, the call delivers exactly `cap`
bytes with no error and the remainder (still carrying the event's error)
stays queued — exactly how a real reader drains a large buffer across
successive calls. -/

/-- Errors a read can report.  `eof`/`unexpectedEOF` are the two values the
client's loop normalizes away; `other` stands for any genuine I/O failure,
tagged by a numeric code. -/
inductive IOErr where
  | eof
  | unexpectedEOF
  | other (code : Nat)
deriving DecidableEq, Repr

/-- One underlying `Read` call's outcome: the bytes it delivers and the
error it reports alongside them. -/
structure ReadEvent where
  data : List Nat
  err : Option IOErr
deriving DecidableEq, Repr

/-- The bytes of a source: concatenation of all its events' data. -/
def srcBytes : List ReadEvent → List Nat
  | [] => []
  | ev :: rest => ev.data ++ srcBytes rest

/-- Termination measure for loops that consume a source: every event costs
one step plus one step per byte it holds. -/
def sourceMeasure : List ReadEvent → Nat
  | [] => 0
  | ev :: rest => ev.data.length + 1 + sourceMeasure rest

/-- The loop inside Go's `io.ReadAtLeast(r, buf, min)`:
`for n < min && err == nil { nn, err = r.Read(buf[n:]); n += nn }`.
`acc` is the bytes read so far (`n = acc.length`), `need` is `min`, and the
result is `(bytes read, error from the last read, remaining source)`. -/
def readAtLeastLoop (events : List ReadEvent) (need : Nat) (acc : List Nat) :
    List Nat × Option IOErr × List ReadEvent :=
  if acc.length < need then
    match events with
    | [] => (acc, some .eof, [])
    | ev :: rest =>
      if ev.data.length ≤ need - acc.length then
        match ev.err with
        | some e => (acc ++ ev.data, some e, rest)
        | none => readAtLeastLoop rest need (acc ++ ev.data)
      else
        (acc ++ ev.data.take (need - acc.length), none,
          ⟨ev.data.drop (need - acc.length), ev.err⟩ :: rest)
  else (acc, none, events)

/-- Go's `io.ReadFull(r, buf)` = `ReadAtLeast(r, buf, len(buf))`, with the
post-processing `if n >= min { err = nil } else if n > 0 && err == EOF
{ err = ErrUnexpectedEOF }`. -/
def readFull (events : List ReadEvent) (bufLen : Nat) :
    List Nat × Option IOErr × List ReadEvent :=
  match readAtLeastLoop events bufLen [] with
  | (n, e, rest) =>
    if bufLen ≤ n.length then (n, none, rest)
    else if 0 < n.length ∧ e = some IOErr.eof then (n, some .unexpectedEOF, rest)
    else (n, e, rest)

/-! ## Definitions: internal/cli/snapshot_restore.go — the chunk-sending loop

The Go loop is:
```
var buf [1024]byte
for (
  n, err := io.ReadFull(r, buf[:])
  if err == io.EOF || err == io.ErrUnexpectedEOF ( err = nil )
  if n == 0 ( break )
  err = stream.Send(Chunk(buf[:n]))
  if err != nil ( report; return 1 )
)
```
Note that the error returned by `io.ReadFull` is normalized and then
unconditionally overwritten by the result of `stream.Send` before it is
ever inspected, so the read error has no influence on control flow; the
loop is driven purely by the byte count `n` and by send failures.  The
embedding reflects exactly that.

`sendErr j` is the outcome of the j-th `stream.Send` call of the whole run
(call 0 is the Open message, calls 1, 2, … are chunks).  The loop returns
the successfully sent chunk payloads in order, the send error that aborted
it (if any), and — when it exits normally — the source state on which the
final, zero-byte fill read was performed. -/
def chunkLoop (sendErr : Nat → Option String) (i : Nat)
    (events : List ReadEvent) (chunks : List (List Nat)) :
    List (List Nat) × Option String × List ReadEvent :=
  if _h0 : (readFull events 1024).1.length = 0 then (chunks, none, events)
  else
    match sendErr i with
    | some msg => (chunks, some msg, (readFull events 1024).2.2)
    | none =>
        chunkLoop sendErr (i + 1) (readFull events 1024).2.2
          (chunks ++ [(readFull events 1024).1])
termination_by sourceMeasure events
decreasing_by
  have key : ∀ (evs : List ReadEvent) (need : Nat) (acc : List Nat),
      sourceMeasure (readAtLeastLoop evs need acc).2.2 +
        (readAtLeastLoop evs need acc).1.length ≤
      sourceMeasure evs + acc.length := by
    intro evs
    induction evs with
    | nil =>
      intro need acc
      by_cases h : acc.length < need <;>
        simp [readAtLeastLoop, h, sourceMeasure]
    | cons ev rest ih =>
      intro need acc
      by_cases h : acc.length < need
      · by_cases hd : ev.data.length ≤ need - acc.length
        · cases he : ev.err with
          | some e =>
            simp [readAtLeastLoop, h, hd, he, sourceMeasure]
            omega
          | none =>
            have := ih need (acc ++ ev.data)
            simp only [readAtLeastLoop, h, hd, he, if_pos, if_true] at *
            simp [sourceMeasure] at *
            omega
        · have hlen : (ev.data.take (need - acc.length)).length =
              need - acc.length := by
            simp [List.length_take]
            omega
          simp [readAtLeastLoop, h, hd, sourceMeasure, hlen]
          omega
      · simp [readAtLeastLoop, h]
  have h : sourceMeasure (readFull events 1024).2.2 +
      (readFull events 1024).1.length ≤ sourceMeasure events := by
    have hk := key events 1024 []
    simp only [readFull]
    rcases hr : readAtLeastLoop events 1024 [] with ⟨n, e, rest⟩
    rw [hr] at hk
    simp at hk
    split <;> [skip; split] <;> simpa using hk
  omega

/-- Concatenation of the sent chunk payloads. -/
def concatChunks : List (List Nat) → List Nat
  | [] => []
  | c :: rest => c ++ concatChunks rest

/-! ## Definitions: internal/cli/snapshot_restore.go — initReader and Run -/

/-- Which reader `initReader` selected: standard input or an opened file. -/
inductive ReaderSel where
  | stdinReader
  | fileReader (path : String)
deriving DecidableEq, Repr

/-- `initReader` from `snapshot_restore.go`.  `fileOpenErr path` is the
outcome of `os.Open path` (`none` = opened fine), `stdinIsTerminal` is what
`sshterm.IsTerminal(os.Stdin.Fd())` reports.  The result mirrors the Go
triple `(io.Reader, io.Closer, error)`: the selected reader, the closer
(only an opened file needs closing), and the error. -/
def initReader (fileOpenErr : String → Option String)
    (stdinIsTerminal : Bool) (args : List String) :
    Option ReaderSel × Option ReaderSel × Option String :=
  match args with
  | arg0 :: _ =>
    if arg0 = "-" then (some .stdinReader, none, none)
    else
      match fileOpenErr arg0 with
      | some e => (none, none, some e)
      | none => (some (.fileReader arg0), some (.fileReader arg0), none)
  | [] =>
    if stdinIsTerminal then
      (none, none, some "stdin is a terminal, refusing to use (use - to force)")
    else
      (some .stdinReader, none, none)

/-- The protocol events the client can put on the wire, in send order.
`openEvent` is the payload-free Open message, `chunk` carries a frame
payload, `halfClose` is the client-side close performed by
`CloseAndRecv`. -/
inductive ProtoEvent where
  | openEvent
  | chunk (data : List Nat)
  | halfClose
deriving DecidableEq, Repr

/-- Everything outside the client that one call of `Run` interacts with:
whether `c.Init` fails, the CLI arguments, the stdin/file environment seen
by `initReader`, the behavior of the selected byte source, and the outcome
of each channel operation (`RestoreSnapshot`, the j-th `Send`, and
`CloseAndRecv`). -/
structure RunWorld where
  initFails : Bool
  args : List String
  stdinIsTerminal : Bool
  fileOpenErr : String → Option String
  sourceEvents : List ReadEvent
  channelOpenErr : Option String
  sendErr : Nat → Option String
  closeRecvErr : Option String

/-- What a call of `Run` produces: the exit status, the protocol events
successfully delivered to the server in order, the messages written to
stderr, and the messages written to the UI. -/
structure RunResult where
  exit : Nat
  trace : List ProtoEvent
  stderrMsgs : List String
  uiMsgs : List String
deriving DecidableEq, Repr

/-- `SnapshotRestoreCommand.Run`, step for step: init, reader selection,
channel open, the Open send, the chunk loop, `CloseAndRecv` (which
half-closes and then blocks for the terminal Result), and the final success
message distinguishing stdin from a named file. -/
def Run (w : RunWorld) : RunResult :=
  if w.initFails then ⟨1, [], [], []⟩
  else
    match initReader w.fileOpenErr w.stdinIsTerminal w.args with
    | (rsel, _closer, rerr) =>
      match rerr with
      | some e => ⟨1, [], ["failed to open output: " ++ e], []⟩
      | none =>
        match w.channelOpenErr with
        | some e => ⟨1, [], ["failed to restore snapshot: " ++ e], []⟩
        | none =>
          match w.sendErr 0 with
          | some e => ⟨1, [], ["failed to send start message: " ++ e], []⟩
          | none =>
            match chunkLoop w.sendErr 1 w.sourceEvents [] with
            | (chunks, some e, _) =>
                ⟨1, ProtoEvent.openEvent :: chunks.map ProtoEvent.chunk,
                  ["failed to write snapshot data: " ++ e], []⟩
            | (chunks, none, _) =>
              match w.closeRecvErr with
              | some e =>
                  ⟨1, (ProtoEvent.openEvent :: chunks.map ProtoEvent.chunk) ++
                        [ProtoEvent.halfClose],
                    ["failed to receive snapshot start message: " ++ e], []⟩
              | none =>
                  ⟨0, (ProtoEvent.openEvent :: chunks.map ProtoEvent.chunk) ++
                        [ProtoEvent.halfClose],
                    [],
                    [if rsel = some ReaderSel.stdinReader then
                       "Server data restored."
                     else
                       "Server data restored from " ++ w.args.headD "" ++ "."]⟩

/-- The chunk payloads occurring in a trace, in order. -/
def chunkPayloads : List ProtoEvent → List (List Nat)
  | [] => []
  | ProtoEvent.chunk d :: rest => d :: chunkPayloads rest
  | _ :: rest => chunkPayloads rest

/-! ## Definitions: concrete environments used to evaluate `Run` -/

/-- A healthy run reading three bytes from stdin. -/
def wOneChunk : RunWorld :=
  ⟨false, [], false, fun _ => none, [⟨[1, 2, 3], none⟩], none,
    fun _ => none, none⟩

/-- A run whose source delivers three bytes and then fails with a genuine
I/O error (not end-of-file). -/
def wErrAfterBytes : RunWorld :=
  ⟨false, [], false, fun _ => none,
    [⟨[1, 2, 3], none⟩, ⟨[], some (IOErr.other 7)⟩], none,
    fun _ => none, none⟩

/-- A run reading a named file whose single read returns three bytes
together with a genuine I/O error. -/
def wErrWithBytes : RunWorld :=
  ⟨false, ["f"], false, fun _ => none,
    [⟨[7, 7, 7], some (IOErr.other 9)⟩], none, fun _ => none, none⟩

/-- A healthy run whose source holds 1026 bytes, so the client sends one
full 1024-byte frame and one 2-byte final frame. -/
def wTwoChunks : RunWorld :=
  ⟨false, [], false, fun _ => none,
    [⟨List.replicate 1024 1, none⟩, ⟨[2, 3], none⟩], none,
    fun _ => none, none⟩

/-- A healthy run whose source holds the single byte 9. -/
def wNine : RunWorld :=
  ⟨false, [], false, fun _ => none, [⟨[9], none⟩], none,
    fun _ => none, none⟩

end Waypoint

namespace Waypoint

/-! ## Lemmas about the read loop -/

/-- Each byte the loop hands out, plus each event it retires, is accounted
against the source measure: the measure of the leftover source plus the
number of bytes delivered beyond `acc` never exceeds the original measure. -/
theorem readAtLeastLoop_measure (events : List ReadEvent) :
    ∀ need acc,
      sourceMeasure (readAtLeastLoop events need acc).2.2 +
        (readAtLeastLoop events need acc).1.length ≤
      sourceMeasure events + acc.length := by
  induction events with
  | nil =>
    intro need acc
    by_cases h : acc.length < need <;> simp [readAtLeastLoop, h, sourceMeasure]
  | cons ev rest ih =>
    intro need acc
    by_cases h : acc.length < need
    · by_cases hd : ev.data.length ≤ need - acc.length
      · cases he : ev.err with
        | some e =>
          simp [readAtLeastLoop, h, hd, he, sourceMeasure]
          omega
        | none =>
          have := ih need (acc ++ ev.data)
          simp only [readAtLeastLoop, h, hd, he, if_pos, if_true] at *
          simp [sourceMeasure] at *
          omega
      · have hlen : (ev.data.take (need - acc.length)).length =
            need - acc.length := by
          simp [List.length_take]
          omega
        simp [readAtLeastLoop, h, hd, sourceMeasure, hlen]
        omega
    · simp [readAtLeastLoop, h]

/-- `readFull` version of the measure bound. -/
theorem readFull_measure (events : List ReadEvent) (bufLen : Nat) :
    sourceMeasure (readFull events bufLen).2.2 +
      (readFull events bufLen).1.length ≤ sourceMeasure events := by
  have h := readAtLeastLoop_measure events bufLen []
  simp only [readFull]
  rcases hr : readAtLeastLoop events bufLen [] with ⟨n, e, rest⟩
  rw [hr] at h
  simp at h
  split <;> [skip; split] <;> simpa using h

/-- The loop never reads past `need` bytes. -/
theorem readAtLeastLoop_length_le (events : List ReadEvent) :
    ∀ need acc, acc.length ≤ need →
      (readAtLeastLoop events need acc).1.length ≤ need := by
  induction events with
  | nil =>
    intro need acc hacc
    by_cases h : acc.length < need <;> simp [readAtLeastLoop, h] <;> omega
  | cons ev rest ih =>
    intro need acc hacc
    by_cases h : acc.length < need
    · by_cases hd : ev.data.length ≤ need - acc.length
      · cases he : ev.err with
        | some e =>
          simp [readAtLeastLoop, h, hd, he]
          omega
        | none =>
          have := ih need (acc ++ ev.data) (by simp; omega)
          simpa [readAtLeastLoop, h, hd, he] using this
      · simp [readAtLeastLoop, h, hd, List.length_take]
        omega
    · simpa [readAtLeastLoop, h] using hacc

/-- `readFull` returns at most `bufLen` bytes. -/
theorem readFull_length_le (events : List ReadEvent) (bufLen : Nat) :
    (readFull events bufLen).1.length ≤ bufLen := by
  have h := readAtLeastLoop_length_le events bufLen [] (by simp)
  simp only [readFull]
  rcases hr : readAtLeastLoop events bufLen [] with ⟨n, e, rest⟩
  rw [hr] at h
  split <;> [skip; split] <;> simpa using h

/-- `readFull` only post-processes the error component: the bytes and the
leftover source are those of the underlying loop. -/
theorem readFull_proj (events : List ReadEvent) (bufLen : Nat) :
    (readFull events bufLen).1 = (readAtLeastLoop events bufLen []).1 ∧
    (readFull events bufLen).2.2 = (readAtLeastLoop events bufLen []).2.2 := by
  simp only [readFull]
  rcases hr : readAtLeastLoop events bufLen [] with ⟨n, e, rest⟩
  split <;> [skip; split] <;> simp

/-- On an error-free source the read loop delivers a prefix of the source's
bytes, leaves an error-free remainder, and stops only because the buffer is
full or the source is exhausted. -/
theorem readAtLeastLoop_errFree (events : List ReadEvent) :
    ∀ need acc, (∀ ev ∈ events, ev.err = none) → acc.length ≤ need →
      (readAtLeastLoop events need acc).1 ++
          srcBytes (readAtLeastLoop events need acc).2.2 =
        acc ++ srcBytes events ∧
      (∀ ev ∈ (readAtLeastLoop events need acc).2.2, ev.err = none) ∧
      ((readAtLeastLoop events need acc).1.length = need ∨
        (readAtLeastLoop events need acc).2.2 = []) := by
  induction events with
  | nil =>
    intro need acc _ hacc
    by_cases h : acc.length < need <;>
      simp [readAtLeastLoop, h, srcBytes]
  | cons ev rest ih =>
    intro need acc herr hacc
    have hev : ev.err = none := herr ev (by simp)
    have hrest : ∀ e ∈ rest, e.err = none := fun e he => herr e (by simp [he])
    by_cases h : acc.length < need
    · by_cases hd : ev.data.length ≤ need - acc.length
      · have := ih need (acc ++ ev.data) hrest (by simp; omega)
        simpa [readAtLeastLoop, h, hd, hev, srcBytes] using this
      · refine ⟨?_, ?_, ?_⟩
        · simp only [readAtLeastLoop, if_pos h, if_neg hd, srcBytes]
          rw [List.append_assoc, ← List.append_assoc (List.take _ _),
            List.take_append_drop]
        · intro e he
          simp [readAtLeastLoop, h, hd] at he
          rcases he with he | he
          · simp [he, hev]
          · exact hrest e he
        · left
          simp [readAtLeastLoop, h, hd, List.length_take]
          omega
    · have hae : acc.length = need := by omega
      refine ⟨by simp [readAtLeastLoop, h], ?_, by simp [readAtLeastLoop, h, hae]⟩
      simpa [readAtLeastLoop, h] using herr

/-- `readFull` on an error-free source: round-trip of the bytes, error-free
remainder, full buffer unless the source ran out, and a zero-byte result
means the source held no bytes at all. -/
theorem readFull_errFree (events : List ReadEvent) (bufLen : Nat)
    (hb : 0 < bufLen) (herr : ∀ ev ∈ events, ev.err = none) :
    (readFull events bufLen).1 ++ srcBytes (readFull events bufLen).2.2 =
      srcBytes events ∧
    (∀ ev ∈ (readFull events bufLen).2.2, ev.err = none) ∧
    ((readFull events bufLen).1.length = bufLen ∨
      (readFull events bufLen).2.2 = []) ∧
    ((readFull events bufLen).1.length = 0 →
      srcBytes events = [] ∧ (readFull events bufLen).2.2 = []) := by
  have hp := readFull_proj events bufLen
  have hl := readAtLeastLoop_errFree events bufLen [] herr (by simp)
  rw [← hp.1, ← hp.2] at hl
  refine ⟨by simpa using hl.1, hl.2.1, hl.2.2, ?_⟩
  intro h0
  have hrest : (readFull events bufLen).2.2 = [] := by
    rcases hl.2.2 with hfull | hdone
    · omega
    · exact hdone
  refine ⟨?_, hrest⟩
  have := hl.1
  rw [hrest] at this
  have hn : (readFull events bufLen).1 = [] := List.length_eq_zero.mp h0
  rw [hn] at this
  simpa [srcBytes] using this.symm

/-! ## Lemmas about the chunk loop -/

/-- One-step unfolding of `chunkLoop`. -/
theorem chunkLoop_eq (sendErr : Nat → Option String) (i : Nat)
    (events : List ReadEvent) (chunks : List (List Nat)) :
    chunkLoop sendErr i events chunks =
      if (readFull events 1024).1.length = 0 then (chunks, none, events)
      else
        match sendErr i with
        | some msg => (chunks, some msg, (readFull events 1024).2.2)
        | none =>
            chunkLoop sendErr (i + 1) (readFull events 1024).2.2
              (chunks ++ [(readFull events 1024).1]) := by
  rw [chunkLoop]
  split <;> simp

theorem concatChunks_append (a b : List (List Nat)) :
    concatChunks (a ++ b) = concatChunks a ++ concatChunks b := by
  induction a with
  | nil => simp [concatChunks]
  | cons c rest ih => simp [concatChunks, ih]

/-- A list of non-empty chunks with empty concatenation is empty. -/
theorem concatChunks_eq_nil {l : List (List Nat)}
    (h : concatChunks l = []) (hne : ∀ c ∈ l, c ≠ []) : l = [] := by
  cases l with
  | nil => rfl
  | cons c rest =>
    simp [concatChunks] at h
    exact absurd h.1 (hne c (by simp))

/-- A source of measure zero is empty. -/
theorem sourceMeasure_eq_zero {events : List ReadEvent}
    (h : sourceMeasure events = 0) : events = [] := by
  cases events with
  | nil => rfl
  | cons ev rest => simp [sourceMeasure] at h

/-- Reading from the exhausted source yields nothing. -/
theorem readFull_nil : readFull [] 1024 = ([], some IOErr.eof, []) := by
  simp [readFull, readAtLeastLoop]

/-- When the fill read yields zero bytes the loop stops at once, sending
nothing, with no error. -/
theorem chunkLoop_stop (sendErr : Nat → Option String) (i : Nat)
    (events : List ReadEvent) (chunks : List (List Nat))
    (h0 : (readFull events 1024).1.length = 0) :
    chunkLoop sendErr i events chunks = (chunks, none, events) := by
  rw [chunkLoop_eq, if_pos h0]

/-- Evaluation helper: one loop iteration that sends a chunk and continues
on the remaining source. -/
theorem chunkLoop_step (sendErr : Nat → Option String) (i : Nat)
    (events : List ReadEvent) (chunks : List (List Nat))
    (hn : ¬(readFull events 1024).1.length = 0) (hs : sendErr i = none) :
    chunkLoop sendErr i events chunks =
      chunkLoop sendErr (i + 1) (readFull events 1024).2.2
        (chunks ++ [(readFull events 1024).1]) := by
  rw [chunkLoop_eq, if_neg hn, hs]

/-- Evaluation helper: one loop iteration that sends a chunk and leaves an
exhausted source behind, so the next fill read ends the loop. -/
theorem chunkLoop_last (sendErr : Nat → Option String) (i : Nat)
    (events : List ReadEvent) (chunks : List (List Nat))
    (hn : ¬(readFull events 1024).1.length = 0) (hs : sendErr i = none)
    (hrest : (readFull events 1024).2.2 = []) :
    chunkLoop sendErr i events chunks =
      (chunks ++ [(readFull events 1024).1], none, []) := by
  rw [chunkLoop_eq, if_neg hn, hs, hrest]
  show chunkLoop sendErr (i + 1) [] (chunks ++ [(readFull events 1024).1]) =
    (chunks ++ [(readFull events 1024).1], none, [])
  rw [chunkLoop_stop _ _ _ _ (by simp [readFull_nil])]

theorem chunkLoop_concat_aux (sendErr : Nat → Option String)
    (hs : ∀ j, sendErr j = none) :
    ∀ m events, sourceMeasure events ≤ m →
      (∀ ev ∈ events, ev.err = none) → ∀ i chunks,
      (chunkLoop sendErr i events chunks).2.1 = none ∧
      concatChunks (chunkLoop sendErr i events chunks).1 =
        concatChunks chunks ++ srcBytes events := by
  intro m
  induction m with
  | zero =>
    intro events hm herr i chunks
    have he : events = [] := sourceMeasure_eq_zero (Nat.le_zero.mp hm)
    subst he
    rw [chunkLoop_eq]
    simp [readFull_nil, srcBytes]
  | succ m ih =>
    intro events hm herr i chunks
    rw [chunkLoop_eq]
    by_cases h0 : (readFull events 1024).1.length = 0
    · have hrf := readFull_errFree events 1024 (by norm_num) herr
      have hsb := hrf.2.2.2 h0
      simp [h0, hsb.1]
    · have hrf := readFull_errFree events 1024 (by norm_num) herr
      have hmeas := readFull_measure events 1024
      have ih2 := ih (readFull events 1024).2.2 (by omega) hrf.2.1 (i + 1)
        (chunks ++ [(readFull events 1024).1])
      simp only [if_neg h0, hs i]
      refine ⟨ih2.1, ?_⟩
      rw [ih2.2, concatChunks_append]
      simp only [concatChunks, List.append_nil, List.append_assoc]
      rw [hrf.1]

/-- Round-trip of the loop on error-free sources with no send failures:
no abort, and the chunks concatenate to exactly the source bytes. -/
theorem chunkLoop_concat (sendErr : Nat → Option String)
    (hs : ∀ j, sendErr j = none) (events : List ReadEvent)
    (herr : ∀ ev ∈ events, ev.err = none) (i : Nat)
    (chunks : List (List Nat)) :
    (chunkLoop sendErr i events chunks).2.1 = none ∧
    concatChunks (chunkLoop sendErr i events chunks).1 =
      concatChunks chunks ++ srcBytes events :=
  chunkLoop_concat_aux sendErr hs (sourceMeasure events) events le_rfl herr
    i chunks

theorem chunkLoop_sizes_aux :
    ∀ m (sendErr : Nat → Option String) events,
      sourceMeasure events ≤ m → ∀ i chunks,
      (∀ c ∈ chunks, c.length ≤ 1024 ∧ c ≠ []) →
      ∀ c ∈ (chunkLoop sendErr i events chunks).1,
        c.length ≤ 1024 ∧ c ≠ [] := by
  intro m
  induction m with
  | zero =>
    intro sendErr events hm i chunks hc
    have he : events = [] := sourceMeasure_eq_zero (Nat.le_zero.mp hm)
    subst he
    rw [chunkLoop_stop sendErr i [] chunks (by simp [readFull_nil])]
    exact hc
  | succ m ih =>
    intro sendErr events hm i chunks hc
    rw [chunkLoop_eq]
    by_cases h0 : (readFull events 1024).1.length = 0
    · rw [if_pos h0]; exact hc
    · rw [if_neg h0]
      cases hsi : sendErr i with
      | some msg => exact hc
      | none =>
        have hmeas := readFull_measure events 1024
        refine ih sendErr (readFull events 1024).2.2 (by omega) (i + 1)
          (chunks ++ [(readFull events 1024).1]) ?_
        intro c hcmem
        rcases List.mem_append.mp hcmem with hcl | hcr
        · exact hc c hcl
        · have hcn : c = (readFull events 1024).1 := by simpa using hcr
          subst hcn
          refine ⟨readFull_length_le events 1024, ?_⟩
          intro hnil
          exact h0 (by simp [hnil])

/-- Every chunk the loop ever sends is non-empty and holds at most 1024
bytes, whatever the source does. -/
theorem chunkLoop_sizes (sendErr : Nat → Option String)
    (events : List ReadEvent) (i : Nat) :
    ∀ c ∈ (chunkLoop sendErr i events []).1, c.length ≤ 1024 ∧ c ≠ [] :=
  chunkLoop_sizes_aux (sourceMeasure events) sendErr events le_rfl i []
    (by simp)

theorem chunkLoop_full_aux (sendErr : Nat → Option String) :
    ∀ m events, sourceMeasure events ≤ m →
      (∀ ev ∈ events, ev.err = none) → ∀ i chunks,
      (∀ c ∈ chunks, c.length = 1024) →
      ∀ c ∈ (chunkLoop sendErr i events chunks).1.dropLast,
        c.length = 1024 := by
  intro m
  induction m with
  | zero =>
    intro events hm herr i chunks hc
    have he : events = [] := sourceMeasure_eq_zero (Nat.le_zero.mp hm)
    subst he
    rw [chunkLoop_stop sendErr i [] chunks (by simp [readFull_nil])]
    exact fun c hmem => hc c (List.dropLast_subset _ hmem)
  | succ m ih =>
    intro events hm herr i chunks hc
    rw [chunkLoop_eq]
    by_cases h0 : (readFull events 1024).1.length = 0
    · rw [if_pos h0]
      exact fun c hmem => hc c (List.dropLast_subset _ hmem)
    · rw [if_neg h0]
      cases hsi : sendErr i with
      | some msg => exact fun c hmem => hc c (List.dropLast_subset _ hmem)
      | none =>
        have hrf := readFull_errFree events 1024 (by norm_num) herr
        have hmeas := readFull_measure events 1024
        by_cases hfull : (readFull events 1024).1.length = 1024
        · refine ih (readFull events 1024).2.2 (by omega) hrf.2.1 (i + 1)
            (chunks ++ [(readFull events 1024).1]) ?_
          intro c hcmem
          rcases List.mem_append.mp hcmem with hcl | hcr
          · exact hc c hcl
          · have hceq : c = (readFull events 1024).1 := by simpa using hcr
            rw [hceq]
            exact hfull
        · have hrest : (readFull events 1024).2.2 = [] := by
            rcases hrf.2.2.1 with hf | hr
            · exact absurd hf hfull
            · exact hr
          rw [hrest,
            chunkLoop_stop sendErr (i + 1) []
              (chunks ++ [(readFull events 1024).1]) (by simp [readFull_nil])]
          intro c hmem
          rw [List.dropLast_concat] at hmem
          exact hc c hmem

/-- On an error-free source, every sent chunk except possibly the last is a
full 1024-byte frame. -/
theorem chunkLoop_full (sendErr : Nat → Option String)
    (events : List ReadEvent) (herr : ∀ ev ∈ events, ev.err = none)
    (i : Nat) :
    ∀ c ∈ (chunkLoop sendErr i events []).1.dropLast, c.length = 1024 :=
  chunkLoop_full_aux sendErr (sourceMeasure events) events le_rfl herr i []
    (by simp)

theorem chunkLoop_exit_aux :
    ∀ m (sendErr : Nat → Option String) events,
      sourceMeasure events ≤ m → ∀ i chunks cs rest,
      chunkLoop sendErr i events chunks = (cs, none, rest) →
      (readFull rest 1024).1 = [] := by
  intro m
  induction m with
  | zero =>
    intro sendErr events hm i chunks cs rest heq
    have he : events = [] := sourceMeasure_eq_zero (Nat.le_zero.mp hm)
    subst he
    rw [chunkLoop_stop sendErr i [] chunks (by simp [readFull_nil])] at heq
    have hrest : ([] : List ReadEvent) = rest := congrArg (fun t => t.2.2) heq
    rw [← hrest, readFull_nil]
  | succ m ih =>
    intro sendErr events hm i chunks cs rest heq
    rw [chunkLoop_eq] at heq
    by_cases h0 : (readFull events 1024).1.length = 0
    · rw [if_pos h0] at heq
      have hrest : events = rest := congrArg (fun t => t.2.2) heq
      rw [← hrest]
      exact List.length_eq_zero.mp h0
    · rw [if_neg h0] at heq
      cases hsi : sendErr i with
      | some msg =>
        rw [hsi] at heq
        have hbad : some msg = (none : Option String) :=
          congrArg (fun t => t.2.1) heq
        exact (Option.some_ne_none msg hbad).elim
      | none =>
        rw [hsi] at heq
        have hmeas := readFull_measure events 1024
        exact ih sendErr (readFull events 1024).2.2 (by omega) (i + 1)
          (chunks ++ [(readFull events 1024).1]) cs rest heq

/-- When the loop exits without a send error, the source state it stopped at
is one whose fill read delivers zero bytes. -/
theorem chunkLoop_exit (sendErr : Nat → Option String)
    (events : List ReadEvent) (i : Nat) (chunks cs : List (List Nat))
    (rest : List ReadEvent)
    (heq : chunkLoop sendErr i events chunks = (cs, none, rest)) :
    (readFull rest 1024).1 = [] :=
  chunkLoop_exit_aux (sourceMeasure events) sendErr events le_rfl i chunks
    cs rest heq

theorem chunkLoop_count_aux :
    ∀ m (sendErr : Nat → Option String) events,
      sourceMeasure events ≤ m → ∀ i chunks,
      (chunkLoop sendErr i events chunks).1.length ≤
        chunks.length + sourceMeasure events := by
  intro m
  induction m with
  | zero =>
    intro sendErr events hm i chunks
    have he : events = [] := sourceMeasure_eq_zero (Nat.le_zero.mp hm)
    subst he
    rw [chunkLoop_stop sendErr i [] chunks (by simp [readFull_nil])]
    simp
  | succ m ih =>
    intro sendErr events hm i chunks
    rw [chunkLoop_eq]
    by_cases h0 : (readFull events 1024).1.length = 0
    · rw [if_pos h0]; simp
    · rw [if_neg h0]
      cases hsi : sendErr i with
      | some msg => simp
      | none =>
        have hmeas := readFull_measure events 1024
        have hrec := ih sendErr (readFull events 1024).2.2 (by omega) (i + 1)
          (chunks ++ [(readFull events 1024).1])
        show (chunkLoop sendErr (i + 1) (readFull events 1024).2.2
            (chunks ++ [(readFull events 1024).1])).1.length ≤
          chunks.length + sourceMeasure events
        simp at hrec
        omega

/-- The loop sends at most one chunk per unit of source measure: the work is
finite for every finite source. -/
theorem chunkLoop_count (sendErr : Nat → Option String)
    (events : List ReadEvent) (i : Nat) (chunks : List (List Nat)) :
    (chunkLoop sendErr i events chunks).1.length ≤
      chunks.length + sourceMeasure events :=
  chunkLoop_count_aux (sourceMeasure events) sendErr events le_rfl i chunks

/-- If no send ever fails, the loop cannot abort. -/
theorem chunkLoop_noSendErr_aux :
    ∀ m (sendErr : Nat → Option String), (∀ j, sendErr j = none) →
      ∀ events, sourceMeasure events ≤ m → ∀ i chunks,
      (chunkLoop sendErr i events chunks).2.1 = none := by
  intro m
  induction m with
  | zero =>
    intro sendErr hs events hm i chunks
    have he : events = [] := sourceMeasure_eq_zero (Nat.le_zero.mp hm)
    subst he
    rw [chunkLoop_stop sendErr i [] chunks (by simp [readFull_nil])]
  | succ m ih =>
    intro sendErr hs events hm i chunks
    rw [chunkLoop_eq]
    by_cases h0 : (readFull events 1024).1.length = 0
    · rw [if_pos h0]
    · rw [if_neg h0, hs i]
      have hmeas := readFull_measure events 1024
      exact ih sendErr hs (readFull events 1024).2.2 (by omega) (i + 1)
        (chunks ++ [(readFull events 1024).1])

theorem chunkLoop_noSendErr (sendErr : Nat → Option String)
    (hs : ∀ j, sendErr j = none) (events : List ReadEvent) (i : Nat)
    (chunks : List (List Nat)) :
    (chunkLoop sendErr i events chunks).2.1 = none :=
  chunkLoop_noSendErr_aux (sourceMeasure events) sendErr hs events le_rfl
    i chunks

/-! ## Lemmas about traces and Run -/

theorem chunkPayloads_of_chunks (cs : List (List Nat)) :
    chunkPayloads (cs.map ProtoEvent.chunk) = cs := by
  induction cs with
  | nil => simp [chunkPayloads]
  | cons c rest ih => simp [chunkPayloads, ih]

theorem chunkPayloads_append (a b : List ProtoEvent) :
    chunkPayloads (a ++ b) = chunkPayloads a ++ chunkPayloads b := by
  induction a with
  | nil => simp [chunkPayloads]
  | cons ev rest ih => cases ev <;> simp [chunkPayloads, ih]

/-- The payloads of the full successful trace shape are exactly the sent
chunks. -/
theorem chunkPayloads_trace (cs : List (List Nat)) :
    chunkPayloads ((ProtoEvent.openEvent :: cs.map ProtoEvent.chunk) ++
      [ProtoEvent.halfClose]) = cs := by
  rw [chunkPayloads_append]
  simp [chunkPayloads, chunkPayloads_of_chunks]

/-- The success path of `Run`: when init, reader selection, channel open,
the Open send, the chunk loop and `CloseAndRecv` all succeed, `Run` exits 0,
delivers Open, the loop's chunks, and the half-close, and reports nothing on
stderr. -/
theorem Run_success (w : RunWorld)
    (hinit : w.initFails = false)
    (hreader : (initReader w.fileOpenErr w.stdinIsTerminal w.args).2.2 = none)
    (hchan : w.channelOpenErr = none)
    (hsend0 : w.sendErr 0 = none)
    (hloop : (chunkLoop w.sendErr 1 w.sourceEvents []).2.1 = none)
    (hrecv : w.closeRecvErr = none) :
    (Run w).exit = 0 ∧
    (Run w).trace =
      (ProtoEvent.openEvent ::
        (chunkLoop w.sendErr 1 w.sourceEvents []).1.map ProtoEvent.chunk) ++
      [ProtoEvent.halfClose] ∧
    (Run w).stderrMsgs = [] := by
  rcases hr : initReader w.fileOpenErr w.stdinIsTerminal w.args with
    ⟨rsel, closer, rerr⟩
  have hrerr : rerr = none := by rw [hr] at hreader; exact hreader
  subst hrerr
  rcases hcl : chunkLoop w.sendErr 1 w.sourceEvents [] with ⟨chunks, cerr, rest⟩
  have hcerr : cerr = none := by rw [hcl] at hloop; exact hloop
  subst hcerr
  simp [Run, hinit, hr, hchan, hsend0, hcl, hrecv]

/-- The path of `Run` where everything succeeds except the terminal
`CloseAndRecv`: the half-close is still performed (the trace is complete),
but the run exits 1. -/
theorem Run_recvErr (w : RunWorld)
    (hinit : w.initFails = false)
    (hreader : (initReader w.fileOpenErr w.stdinIsTerminal w.args).2.2 = none)
    (hchan : w.channelOpenErr = none)
    (hsend0 : w.sendErr 0 = none)
    (hloop : (chunkLoop w.sendErr 1 w.sourceEvents []).2.1 = none)
    (e : String) (hrecv : w.closeRecvErr = some e) :
    (Run w).exit = 1 ∧
    (Run w).trace =
      (ProtoEvent.openEvent ::
        (chunkLoop w.sendErr 1 w.sourceEvents []).1.map ProtoEvent.chunk) ++
      [ProtoEvent.halfClose] := by
  rcases hr : initReader w.fileOpenErr w.stdinIsTerminal w.args with
    ⟨rsel, closer, rerr⟩
  have hrerr : rerr = none := by rw [hr] at hreader; exact hreader
  subst hrerr
  rcases hcl : chunkLoop w.sendErr 1 w.sourceEvents [] with ⟨chunks, cerr, rest⟩
  have hcerr : cerr = none := by rw [hcl] at hloop; exact hloop
  subst hcerr
  simp [Run, hinit, hr, hchan, hsend0, hcl, hrecv]

/-- Every trace `Run` can produce has one of three shapes: empty, Open
followed by the loop's chunks, or Open, the loop's chunks and the
half-close. -/
theorem Run_trace_shape (w : RunWorld) :
    (Run w).trace = [] ∨
    (Run w).trace =
      ProtoEvent.openEvent ::
        (chunkLoop w.sendErr 1 w.sourceEvents []).1.map ProtoEvent.chunk ∨
    (Run w).trace =
      (ProtoEvent.openEvent ::
        (chunkLoop w.sendErr 1 w.sourceEvents []).1.map ProtoEvent.chunk) ++
      [ProtoEvent.halfClose] := by
  by_cases hi : w.initFails
  · left; simp [Run, hi]
  · rcases hr : initReader w.fileOpenErr w.stdinIsTerminal w.args with
      ⟨rsel, closer, rerr⟩
    cases rerr with
    | some e => left; simp [Run, hi, hr]
    | none =>
      cases hch : w.channelOpenErr with
      | some e => left; simp [Run, hi, hr, hch]
      | none =>
        cases hs0 : w.sendErr 0 with
        | some e => left; simp [Run, hi, hr, hch, hs0]
        | none =>
          rcases hcl : chunkLoop w.sendErr 1 w.sourceEvents [] with
            ⟨chunks, cerr, rest⟩
          cases cerr with
          | some e =>
            right; left
            simp [Run, hi, hr, hch, hs0, hcl]
          | none =>
            cases hcr : w.closeRecvErr with
            | some e =>
              right; right
              simp [Run, hi, hr, hch, hs0, hcl, hcr]
            | none =>
              right; right
              simp [Run, hi, hr, hch, hs0, hcl, hcr]

end Waypoint

namespace Waypoint

/-! ## The claims -/

/-- C1: on every finite, error-free byte source, a fully successful run
sends Chunk frames whose payloads, concatenated in send order, are exactly
the source's bytes — nothing lost, duplicated or reordered — and an empty
source produces zero Chunk frames. -/
theorem claim_C1_roundtrip (w : RunWorld)
    (hinit : w.initFails = false)
    (hreader : (initReader w.fileOpenErr w.stdinIsTerminal w.args).2.2 = none)
    (hchan : w.channelOpenErr = none)
    (hsend : ∀ j, w.sendErr j = none)
    (hrecv : w.closeRecvErr = none)
    (herr : ∀ ev ∈ w.sourceEvents, ev.err = none) :
    concatChunks (chunkPayloads (Run w).trace) = srcBytes w.sourceEvents ∧
    (srcBytes w.sourceEvents = [] → chunkPayloads (Run w).trace = []) := by
  have hcc := chunkLoop_concat w.sendErr hsend w.sourceEvents herr 1 []
  have hs := Run_success w hinit hreader hchan (hsend 0) hcc.1 hrecv
  rw [hs.2.1, chunkPayloads_trace]
  have hcat : concatChunks (chunkLoop w.sendErr 1 w.sourceEvents []).1 =
      srcBytes w.sourceEvents := by
    simpa [concatChunks] using hcc.2
  refine ⟨hcat, fun hempty => ?_⟩
  have hsizes := chunkLoop_sizes w.sendErr w.sourceEvents 1
  exact concatChunks_eq_nil (by rw [hcat, hempty])
    (fun c hc => (hsizes c hc).2)

/-- Witness for C1 at a concrete three-byte source. -/
theorem claim_C1_roundtrip_witness :
    concatChunks (chunkPayloads (Run wOneChunk).trace) =
      srcBytes [⟨[1, 2, 3], none⟩] :=
  (claim_C1_roundtrip wOneChunk rfl rfl rfl (fun _ => rfl) rfl
    (by simp [wOneChunk])).1

/-- C2 (code bug): the claim says a non-EOF read failure mid-stream aborts
the transfer and is surfaced.  The code normalizes the `io.ReadFull` error
and then overwrites it with the `Send` result before ever testing it, so
the failure is silently swallowed: on a source that delivers three bytes
and then fails with a genuine I/O error, the run half-closes as if the
stream had ended, exits 0, prints the success message and writes nothing to
stderr. -/
theorem claim_C2_read_error_swallowed :
    Run wErrAfterBytes =
      ⟨0, [ProtoEvent.openEvent, ProtoEvent.chunk [1, 2, 3],
           ProtoEvent.halfClose], [], ["Server data restored."]⟩ := by
  have hrf : readFull [⟨[1, 2, 3], none⟩, ⟨[], some (IOErr.other 7)⟩] 1024 =
      ([1, 2, 3], some (IOErr.other 7), []) := rfl
  have hloop := chunkLoop_last (fun _ => none) 1
    [⟨[1, 2, 3], none⟩, ⟨[], some (IOErr.other 7)⟩] []
    (by rw [hrf]; simp) rfl (by rw [hrf])
  rw [hrf] at hloop
  simp [Run, wErrAfterBytes, initReader, hloop]

/-- C3: every Chunk frame any run sends carries at most 1024 bytes, and on
an error-free source every sent Chunk except possibly the last carries
exactly 1024 bytes, however the source fragments its reads (`io.ReadFull`
batches short reads into a full buffer). -/
theorem claim_C3_chunk_sizes (w : RunWorld) :
    (∀ c ∈ chunkPayloads (Run w).trace, c.length ≤ 1024) ∧
    ((∀ ev ∈ w.sourceEvents, ev.err = none) →
      ∀ c ∈ (chunkPayloads (Run w).trace).dropLast, c.length = 1024) := by
  have hsizes := chunkLoop_sizes w.sendErr w.sourceEvents 1
  have hpl : chunkPayloads (Run w).trace =
      (chunkLoop w.sendErr 1 w.sourceEvents []).1 ∨
      chunkPayloads (Run w).trace = [] := by
    rcases Run_trace_shape w with h | h | h
    · right; rw [h]; rfl
    · left; rw [h]; simp [chunkPayloads, chunkPayloads_of_chunks]
    · left; rw [h, chunkPayloads_trace]
  rcases hpl with hp | hp <;> rw [hp]
  · exact ⟨fun c hc => (hsizes c hc).1,
      fun herr => chunkLoop_full w.sendErr w.sourceEvents herr 1⟩
  · simp

set_option maxRecDepth 20000 in
/-- Witness for C3 at a concrete 1026-byte source: the non-final frame holds
exactly 1024 bytes and the final frame at most 1024. -/
theorem claim_C3_chunk_sizes_witness :
    [2, 3] ∈ chunkPayloads (Run wTwoChunks).trace ∧
    List.replicate 1024 1 ∈ (chunkPayloads (Run wTwoChunks).trace).dropLast ∧
    ([2, 3] : List Nat).length ≤ 1024 ∧
    (List.replicate 1024 1).length = 1024 := by
  have hrf1 : readFull [⟨List.replicate 1024 1, none⟩, ⟨[2, 3], none⟩] 1024 =
      (List.replicate 1024 1, none, [⟨[2, 3], none⟩]) := by
    simp [readFull, readAtLeastLoop]
  have hrf2 : readFull [(⟨[2, 3], none⟩ : ReadEvent)] 1024 =
      ([2, 3], some IOErr.unexpectedEOF, []) := rfl
  have h1 : chunkLoop (fun _ => none) 1
      [⟨List.replicate 1024 1, none⟩, ⟨[2, 3], none⟩] [] =
      ([List.replicate 1024 1, [2, 3]], none, []) := by
    rw [chunkLoop_step _ _ _ _ (by rw [hrf1]; simp) rfl, hrf1]
    rw [chunkLoop_last _ _ _ _ (by rw [hrf2]; simp) rfl (by rw [hrf2]), hrf2]
    simp
  have hs := Run_success wTwoChunks rfl rfl rfl rfl
    (by show (chunkLoop (fun _ => none) 1
          [⟨List.replicate 1024 1, none⟩, ⟨[2, 3], none⟩] []).2.1 = none
        rw [h1]) rfl
  have hcs : (chunkLoop wTwoChunks.sendErr 1 wTwoChunks.sourceEvents []).1 =
      [List.replicate 1024 1, [2, 3]] := by
    show (chunkLoop (fun _ => none) 1
      [⟨List.replicate 1024 1, none⟩, ⟨[2, 3], none⟩] []).1 = _
    rw [h1]
  have hplv : chunkPayloads (Run wTwoChunks).trace =
      [List.replicate 1024 1, [2, 3]] := by
    rw [hs.2.1, chunkPayloads_trace, hcs]
  have hm1 : [2, 3] ∈ chunkPayloads (Run wTwoChunks).trace := by
    rw [hplv]; simp
  have hm2 : List.replicate 1024 1 ∈
      (chunkPayloads (Run wTwoChunks).trace).dropLast := by
    rw [hplv]; simp [List.dropLast]
  exact ⟨hm1, hm2, (claim_C3_chunk_sizes wTwoChunks).1 _ hm1,
    (claim_C3_chunk_sizes wTwoChunks).2 (by simp [wTwoChunks]) _ hm2⟩

/-- C4: once a run reaches the protocol, its trace is one payload-free Open,
then the chunks in the order read, then at most one half-close, and nothing
else in any order; when no send fails, the half-close happens exactly once
after the last chunk and the run then succeeds exactly when the terminal
Result it blocks on is not an error. -/
theorem claim_C4_session_order (w : RunWorld)
    (hinit : w.initFails = false)
    (hreader : (initReader w.fileOpenErr w.stdinIsTerminal w.args).2.2 = none)
    (hchan : w.channelOpenErr = none) :
    ((Run w).trace = [] ∨
      (∃ cs : List (List Nat), (Run w).trace =
        ProtoEvent.openEvent :: cs.map ProtoEvent.chunk) ∨
      (∃ cs : List (List Nat), (Run w).trace =
        (ProtoEvent.openEvent :: cs.map ProtoEvent.chunk) ++
          [ProtoEvent.halfClose])) ∧
    ((∀ j, w.sendErr j = none) →
      ∃ cs : List (List Nat), (Run w).trace =
        (ProtoEvent.openEvent :: cs.map ProtoEvent.chunk) ++
          [ProtoEvent.halfClose] ∧
        ((Run w).exit = 0 ↔ w.closeRecvErr = none)) := by
  constructor
  · rcases Run_trace_shape w with h | h | h
    · exact Or.inl h
    · exact Or.inr (Or.inl ⟨_, h⟩)
    · exact Or.inr (Or.inr ⟨_, h⟩)
  · intro hsend
    have hloop := chunkLoop_noSendErr w.sendErr hsend w.sourceEvents 1 []
    refine ⟨(chunkLoop w.sendErr 1 w.sourceEvents []).1, ?_, ?_⟩
    · cases hcr : w.closeRecvErr with
      | some e =>
        exact (Run_recvErr w hinit hreader hchan (hsend 0) hloop e hcr).2
      | none =>
        exact (Run_success w hinit hreader hchan (hsend 0) hloop hcr).2.1
    · cases hcr : w.closeRecvErr with
      | some e =>
        have hx := (Run_recvErr w hinit hreader hchan (hsend 0) hloop e hcr).1
        simp [hx]
      | none =>
        have hx := (Run_success w hinit hreader hchan (hsend 0) hloop hcr).1
        simp [hx]

/-- Witness for C4: at a concrete healthy world the run exits 0. -/
theorem claim_C4_session_order_witness : (Run wOneChunk).exit = 0 := by
  obtain ⟨cs, htr, hiff⟩ :=
    (claim_C4_session_order wOneChunk rfl rfl rfl).2 (fun _ => rfl)
  exact hiff.mpr rfl

/-- C5: `Env` always binds `DEVFLOW_DEPLOYMENT_ID` to `c.Id`; when
`c.ServerAddr` is empty the disabled marker is present and neither the
address nor the insecure variable is; when it is non-empty the address is
bound to `c.ServerAddr` and the insecure marker is present exactly when
`c.ServerInsecure` is true; the disabled marker and the address never
coexist. -/
theorem claim_C5_env_mapping (c : DeploymentConfig) :
    envGet c.Env "DEVFLOW_DEPLOYMENT_ID" = some c.Id ∧
    envGet c.Env "DEVFLOW_SERVER_DISABLE" =
      (if c.ServerAddr = "" then some "1" else none) ∧
    envGet c.Env "DEVFLOW_SERVER_ADDR" =
      (if c.ServerAddr = "" then none else some c.ServerAddr) ∧
    envGet c.Env "DEVFLOW_SERVER_INSECURE" =
      (if c.ServerAddr = "" then none
       else if c.ServerInsecure then some "1" else none) ∧
    (envGet c.Env "DEVFLOW_SERVER_DISABLE" = none ∨
      envGet c.Env "DEVFLOW_SERVER_ADDR" = none) := by
  by_cases h : c.ServerAddr = "" <;>
    cases hi : c.ServerInsecure <;>
      simp [DeploymentConfig.Env, envGet, h, hi, List.find?]

/-- C6 (code bug): the claim lists "failure to read the source" among the
conditions that force exit status 1, but because the chunk loop drops the
read error (see C2) a run whose only failure is a mid-stream read error
exits 0 and prints the success message — so exit 0 does not coincide with
"the entire transfer succeeds". -/
theorem claim_C6_exit_zero_despite_read_failure :
    Run wErrWithBytes =
      ⟨0, [ProtoEvent.openEvent, ProtoEvent.chunk [7, 7, 7],
           ProtoEvent.halfClose], [],
        ["Server data restored from f."]⟩ := by
  have hrf : readFull [⟨[7, 7, 7], some (IOErr.other 9)⟩] 1024 =
      ([7, 7, 7], some (IOErr.other 9), []) := rfl
  have hloop := chunkLoop_last (fun _ => none) 1
    [⟨[7, 7, 7], some (IOErr.other 9)⟩] []
    (by rw [hrf]; simp) rfl (by rw [hrf])
  rw [hrf] at hloop
  simp [Run, wErrWithBytes, initReader, hloop]

/-- C7: `initReader` selects the byte source: a leading `-` argument forces
stdin even on a terminal; any other argument is opened as a file, returning
the open error if it fails; with no argument stdin is used unless it is a
terminal, which is refused with a descriptive error. -/
theorem claim_C7_source_selection (fileOpenErr : String → Option String)
    (stdinIsTerminal : Bool) (arg0 : String) (rest : List String) :
    initReader fileOpenErr stdinIsTerminal ("-" :: rest) =
      (some ReaderSel.stdinReader, none, none) ∧
    (arg0 ≠ "-" → fileOpenErr arg0 = none →
      initReader fileOpenErr stdinIsTerminal (arg0 :: rest) =
        (some (ReaderSel.fileReader arg0), some (ReaderSel.fileReader arg0),
          none)) ∧
    (arg0 ≠ "-" → ∀ e, fileOpenErr arg0 = some e →
      initReader fileOpenErr stdinIsTerminal (arg0 :: rest) =
        (none, none, some e)) ∧
    initReader fileOpenErr true [] =
      (none, none,
        some "stdin is a terminal, refusing to use (use - to force)") ∧
    initReader fileOpenErr false [] =
      (some ReaderSel.stdinReader, none, none) := by
  refine ⟨by simp [initReader], ?_, ?_, by simp [initReader],
    by simp [initReader]⟩
  · intro hne hopen
    simp [initReader, hne, hopen]
  · intro hne e hopen
    simp [initReader, hne, hopen]

/-- Witness for C7 at concrete arguments and open outcomes. -/
theorem claim_C7_source_selection_witness :
    initReader (fun _ => none) true ["-"] =
      (some ReaderSel.stdinReader, none, none) ∧
    initReader (fun _ => none) true ["x"] =
      (some (ReaderSel.fileReader "x"), some (ReaderSel.fileReader "x"),
        none) ∧
    initReader (fun _ => some "boom") false ["x"] =
      (none, none, some "boom") ∧
    initReader (fun _ => none) true [] =
      (none, none,
        some "stdin is a terminal, refusing to use (use - to force)") ∧
    initReader (fun _ => none) false [] =
      (some ReaderSel.stdinReader, none, none) := by
  have h1 := claim_C7_source_selection (fun _ => none) true "x" []
  have h2 := claim_C7_source_selection (fun _ => some "boom") false "x" []
  exact ⟨h1.1, h1.2.1 (by decide) rfl, h2.2.2.1 (by decide) "boom" rfl,
    h1.2.2.2.1, h2.2.2.2.2⟩

/-- C8: the chunk-sending loop is total on every finite source (it is
defined by well-founded recursion on the source measure, and sends at most
`sourceMeasure` chunks), and it exits normally exactly when a buffer-fill
read returns zero new bytes: a normal exit leaves a source state whose fill
read yields nothing, and a zero-byte fill read stops the loop on the spot
with nothing further sent. -/
theorem claim_C8_loop_exit (sendErr : Nat → Option String) (i : Nat)
    (events : List ReadEvent) (chunks : List (List Nat)) :
    (∀ cs rest, chunkLoop sendErr i events chunks = (cs, none, rest) →
      (readFull rest 1024).1 = []) ∧
    ((readFull events 1024).1.length = 0 →
      chunkLoop sendErr i events chunks = (chunks, none, events)) ∧
    (chunkLoop sendErr i events chunks).1.length ≤
      chunks.length + sourceMeasure events :=
  ⟨fun cs rest heq => chunkLoop_exit sendErr events i chunks cs rest heq,
   fun h0 => chunkLoop_stop sendErr i events chunks h0,
   chunkLoop_count sendErr events i chunks⟩

/-- Witness for C8 at a concrete one-byte source and at the empty source. -/
theorem claim_C8_loop_exit_witness :
    (readFull ([] : List ReadEvent) 1024).1 = [] ∧
    chunkLoop (fun _ => none) 1 ([] : List ReadEvent) [] = ([], none, []) ∧
    (chunkLoop (fun _ => none) 1 [⟨[9], none⟩] []).1.length ≤
      0 + sourceMeasure [⟨[9], none⟩] := by
  have hrf : readFull [(⟨[9], none⟩ : ReadEvent)] 1024 =
      ([9], some IOErr.unexpectedEOF, []) := rfl
  have h1 := chunkLoop_last (fun _ => none) 1 [⟨[9], none⟩] []
    (by rw [hrf]; simp) rfl (by rw [hrf])
  refine ⟨(claim_C8_loop_exit (fun _ => none) 1 [⟨[9], none⟩] []).1
      ([] ++ [[9]]) [] ?_,
    (claim_C8_loop_exit (fun _ => none) 1 [] []).2.1
      (by simp [readFull_nil]),
    by simpa using (claim_C8_loop_exit (fun _ => none) 1
      [⟨[9], none⟩] []).2.2⟩
  rw [h1]
  simp [hrf]

/-- C9: the client never sends a zero-length Chunk frame: any chunk payload
occurring in any run's trace is non-empty, because the loop breaks on a
zero-byte read before reaching the send. -/
theorem claim_C9_no_empty_chunk (w : RunWorld) (d : List Nat)
    (hmem : ProtoEvent.chunk d ∈ (Run w).trace) : d ≠ [] := by
  have hsizes := chunkLoop_sizes w.sendErr w.sourceEvents 1
  rcases Run_trace_shape w with h | h | h <;> rw [h] at hmem
  · simp at hmem
  · simp at hmem
    exact (hsizes d hmem).2
  · simp at hmem
    exact (hsizes d hmem).2

/-- Witness for C9: the concrete one-byte run sends the chunk `[9]`, which
is non-empty. -/
theorem claim_C9_no_empty_chunk_witness :
    ProtoEvent.chunk [9] ∈ (Run wNine).trace ∧ ([9] : List Nat) ≠ [] := by
  have hrf : readFull [(⟨[9], none⟩ : ReadEvent)] 1024 =
      ([9], some IOErr.unexpectedEOF, []) := rfl
  have h1 := chunkLoop_last (fun _ => none) 1 [⟨[9], none⟩] []
    (by rw [hrf]; simp) rfl (by rw [hrf])
  rw [hrf] at h1
  have hs := Run_success wNine rfl rfl rfl rfl
    (by show (chunkLoop (fun _ => none) 1 [⟨[9], none⟩] []).2.1 = none
        rw [h1]) rfl
  have hmem : ProtoEvent.chunk [9] ∈ (Run wNine).trace := by
    rw [hs.2.1]
    have hcs : (chunkLoop wNine.sendErr 1 wNine.sourceEvents []).1 =
        [[9]] := by
      show (chunkLoop (fun _ => none) 1 [⟨[9], none⟩] []).1 = [[9]]
      rw [h1]
      simp
    rw [hcs]
    simp
  exact ⟨hmem, claim_C9_no_empty_chunk wNine [9] hmem⟩

/-- C10: whenever `DEVFLOW_SERVER_DISABLE` or `DEVFLOW_SERVER_INSECURE` is
present in the result of `Env`, its value is exactly the string "1"; and
`DEVFLOW_DEPLOYMENT_ID` is present (bound to the empty string) even when the
configured id is empty. -/
theorem claim_C10_env_marker_values (c : DeploymentConfig) :
    (envGet c.Env "DEVFLOW_SERVER_DISABLE" = none ∨
      envGet c.Env "DEVFLOW_SERVER_DISABLE" = some "1") ∧
    (envGet c.Env "DEVFLOW_SERVER_INSECURE" = none ∨
      envGet c.Env "DEVFLOW_SERVER_INSECURE" = some "1") ∧
    (∀ addr ins,
      envGet (DeploymentConfig.Env ⟨"", addr, ins⟩) "DEVFLOW_DEPLOYMENT_ID" =
        some "") := by
  refine ⟨?_, ?_, ?_⟩
  · by_cases h : c.ServerAddr = "" <;>
      cases hi : c.ServerInsecure <;>
        simp [DeploymentConfig.Env, envGet, h, hi, List.find?]
  · by_cases h : c.ServerAddr = "" <;>
      cases hi : c.ServerInsecure <;>
        simp [DeploymentConfig.Env, envGet, h, hi, List.find?]
  · intro addr ins
    by_cases ha : addr = "" <;>
      cases ins <;>
        simp [DeploymentConfig.Env, envGet, ha, List.find?]

end Waypoint
